import Mathlib

set_option maxHeartbeats 1000000

/-!
# Verification of the retrieval core of the Food RAG repository

Shallow embedding of `lib/providers/database.ts` (the vector-store
abstraction), `lib/config.ts` (backend selection inputs) and the retry
policy of the Upstash adapter.  Vectors of JavaScript numbers are
modelled as `List ℝ`; `Math.sqrt` is `Real.sqrt`; a thrown exception is
an `Except.error`; the mutable `this.documents` array of
`SimpleVectorDatabase` is threaded explicitly as a state value.
-/

/-- The error thrown by `SimpleVectorDatabase.cosineSimilarity`:
`new Error('Vectors must have the same length')` when the two vectors
differ in length.  It is the only exception the in-memory ranking path
raises. -/
inductive DbError where
  | dimensionMismatch
deriving DecidableEq

/-- One record of the in-memory corpus:
`{ id: string; text: string; embedding: number[] }`. -/
structure Doc where
  id : String
  text : String
  embedding : List ℝ

/-- The result shape returned by `query`:
`{ documents: string[], ids: string[], distances: number[] }`
(the optional metadata fields are never set by the in-memory store). -/
structure RagResult where
  documents : List String
  ids : List String
  distances : List ℝ

/-- The `dotProduct` accumulator of `cosineSimilarity`:
`for i: dotProduct += a[i] * b[i]` (the loop runs only when the two
lengths are equal, so pairing by `zip` is exact). -/
def dotList (a b : List ℝ) : ℝ :=
  ((a.zip b).map fun p => p.1 * p.2).sum

/-- The `normA` / `normB` accumulator of `cosineSimilarity` before
`Math.sqrt` is applied: `norm += v[i] * v[i]`. -/
def sqSum (v : List ℝ) : ℝ :=
  (v.map fun x => x * x).sum

/-- `SimpleVectorDatabase.cosineSimilarity(a, b)`: throws on a length
mismatch, returns `0` when either norm (`normA = √(sqSum a)`,
`normB = √(sqSum b)`) is zero, otherwise returns
`dotProduct / (normA * normB)`. -/
noncomputable def cosineSimilarity (a b : List ℝ) : Except DbError ℝ :=
  if a.length ≠ b.length then .error .dimensionMismatch
  else if Real.sqrt (sqSum a) = 0 ∨ Real.sqrt (sqSum b) = 0 then .ok 0
  else .ok (dotList a b / (Real.sqrt (sqSum a) * Real.sqrt (sqSum b)))

/-- One element of the `similarities` array built inside `query`:
`{ ...doc, similarity, distance: 1 - similarity }`. -/
structure ScoredDoc where
  id : String
  text : String
  embedding : List ℝ
  similarity : ℝ
  distance : ℝ

/-- The `this.documents.map(doc => ...)` step of `query`: score every
corpus record against the query embedding.  A throw inside the mapped
function aborts the whole map, so the first length mismatch becomes the
result of the call. -/
noncomputable def computeSimilarities (queryEmbedding : List ℝ) :
    List Doc → Except DbError (List ScoredDoc)
  | [] => .ok []
  | doc :: rest =>
    match cosineSimilarity queryEmbedding doc.embedding with
    | .error e => .error e
    | .ok s =>
      match computeSimilarities queryEmbedding rest with
      | .error e => .error e
      | .ok tail => .ok (⟨doc.id, doc.text, doc.embedding, s, 1 - s⟩ :: tail)

/-- The ordering realised by the comparator
`(a, b) => b.similarity - a.similarity` passed to `Array.prototype.sort`:
`a` may be placed before `b` exactly when `b.similarity ≤ a.similarity`
(descending similarity). -/
def simCompare (a b : ScoredDoc) : Prop :=
  b.similarity ≤ a.similarity

noncomputable instance : DecidableRel simCompare :=
  fun a b => Real.decidableLE b.similarity a.similarity

/-- `SimpleVectorDatabase.query(queryEmbedding, nResults)` on a given
corpus.  `Array.prototype.sort` is stable (ECMA-262), so with the
comparator above its output is the unique permutation that is sorted by
descending similarity and keeps equal-similarity elements in their
original order; `List.insertionSort simCompare` produces exactly that
permutation (sortedness and per-score stability are proved below). -/
noncomputable def queryDocs (queryEmbedding : List ℝ) (nResults : ℕ)
    (documents : List Doc) : Except DbError RagResult :=
  if documents.length = 0 then .ok ⟨[], [], []⟩
  else
    match computeSimilarities queryEmbedding documents with
    | .error e => .error e
    | .ok similarities =>
      let topResults := (List.insertionSort simCompare similarities).take nResults
      .ok ⟨topResults.map (·.text), topResults.map (·.id), topResults.map (·.distance)⟩

/-- The loop of `SimpleVectorDatabase.addDocuments`: for each position
`i` (the three argument arrays have equal length by the caller-enforced
precondition), drop any existing record whose id equals `ids[i]`, then
push the new record to the end.  The `saveToFile` snapshot write touches
only the file system, not the corpus. -/
def addDocumentsList : List String → List (List ℝ) → List String → List Doc → List Doc
  | text :: ts, emb :: es, i :: is, documents =>
    addDocumentsList ts es is
      ((documents.filter fun doc => doc.id ≠ i) ++ [⟨i, text, emb⟩])
  | _, _, _, documents => documents

/-- The mutable state of one `SimpleVectorDatabase` instance: its
`this.documents` array. -/
structure SimpleDB where
  documents : List Doc

/-- The `query` method as a state transformer: it only reads
`this.documents` (never assigns it), so the state-passing translation
returns the state component unchanged on both the success and the throw
path. -/
noncomputable def queryM (queryEmbedding : List ℝ) (nResults : ℕ)
    (s : SimpleDB) : Except DbError RagResult × SimpleDB :=
  (queryDocs queryEmbedding nResults s.documents, s)

/-- The `addDocuments` method as a state transformer: replaces
`this.documents` by the updated array. -/
def addDocumentsM (documents : List String) (embeddings : List (List ℝ))
    (ids : List String) (s : SimpleDB) : SimpleDB :=
  ⟨addDocumentsList documents embeddings ids s.documents⟩

/-- The `getExistingIds` method as a state transformer:
`return this.documents.map(doc => doc.id)` — a pure read. -/
def getExistingIdsM (s : SimpleDB) : List String × SimpleDB :=
  (s.documents.map (·.id), s)

/-- `UpstashDatabase.retryAttempts = 3`. -/
def retryAttempts : ℕ := 3

/-- `UpstashDatabase.retryDelay = 1000` (milliseconds). -/
def retryDelay : ℕ := 1000

/-- The `for` loop of `UpstashDatabase.withRetry`.  `op i` is the
outcome of invoking `operation()` on the `i`-th attempt; `remaining`
counts the loop iterations still to run (`retryAttempts - i`), and
`last` carries `lastError` (`none` models the initial `null`).  Besides
the JavaScript result the translation records, as instrumentation, the
list of backoff delays slept (`this.retryDelay * Math.pow(2, i)`,
slept only when `i < this.retryAttempts - 1`) and the list of attempt
indices at which `operation()` was actually invoked. -/
def withRetryGo {E : Type _} {α : Type _} (op : ℕ → Except E α) (fallback : E) :
    ℕ → ℕ → Option E → Except E α × List ℕ × List ℕ
  | 0, _, last => (.error (last.getD fallback), [], [])
  | n + 1, i, _ =>
    match op i with
    | .ok a => (.ok a, [], [i])
    | .error e =>
      let rest := withRetryGo op fallback n (i + 1) (some e)
      (rest.1, (if 0 < n then [retryDelay * 2 ^ i] else []) ++ rest.2.1, i :: rest.2.2)

/-- `UpstashDatabase.withRetry(operation)`: up to `retryAttempts`
attempts starting at index 0 with no error observed yet; on exhaustion
it throws `lastError || new Error('Operation failed after retries')`
(`fallback` models the fresh error of the `||` right-hand side, which
is reachable only when `retryAttempts = 0`). -/
def withRetry {E : Type _} {α : Type _} (fallback : E) (op : ℕ → Except E α) :
    Except E α × List ℕ × List ℕ :=
  withRetryGo op fallback retryAttempts 0 none

/-- The recognised values of `VECTOR_DB_TYPE`
(`z.enum(['chroma', 'upstash', 'simple'])`). -/
inductive VectorDbType where
  | chroma
  | upstash
  | simple
deriving DecidableEq

/-- The slice of the validated environment configuration consumed by
`createVectorDatabase`.  `UPSTASH_VECTOR_URL` and `UPSTASH_VECTOR_TOKEN`
are optional strings (`z.string().optional()`), so `none` models an
unset variable. -/
structure Config where
  VECTOR_DB_TYPE : VectorDbType
  UPSTASH_VECTOR_URL : Option String
  UPSTASH_VECTOR_TOKEN : Option String

/-- JavaScript truthiness of a `string | undefined` value, as tested by
`config.UPSTASH_VECTOR_URL && config.UPSTASH_VECTOR_TOKEN`: `undefined`
and the empty string are falsy, every other string is truthy. -/
def truthy : Option String → Bool
  | none => false
  | some s => s ≠ ""

/-- Which concrete class `createVectorDatabase` instantiates. -/
inductive BackendKind where
  | upstash
  | chroma
  | simple
deriving DecidableEq

/-- `createVectorDatabase()`: Upstash when `VECTOR_DB_TYPE === 'upstash'`
and both credentials are truthy; otherwise the `switch` on
`VECTOR_DB_TYPE` — `'chroma'` builds `ChromaDatabase`, `'simple'` and
the `default` branch (which is what an uncredentialled `'upstash'`
reaches) build `SimpleVectorDatabase`. -/
def createVectorDatabase (config : Config) : BackendKind :=
  if config.VECTOR_DB_TYPE = .upstash ∧ truthy config.UPSTASH_VECTOR_URL
      ∧ truthy config.UPSTASH_VECTOR_TOKEN then
    .upstash
  else
    match config.VECTOR_DB_TYPE with
    | .chroma => .chroma
    | .simple => .simple
    | .upstash => .simple

/-- One hit returned by the Upstash index `query` call. -/
structure UpstashHit where
  id : String

/-- The parameters `UpstashDatabase.getExistingIds` passes to
`this.index.query`: a 1536-dimensional zero vector, `topK: 100`,
`includeMetadata: false`. -/
structure UpstashQueryParams where
  vector : List ℝ
  topK : ℕ
  includeMetadata : Bool

/-- `UpstashDatabase.getExistingIds()`: issues the bootstrap query with
a dummy vector and maps the hit ids to strings; the surrounding
`try/catch` converts any thrown error into an empty array.
`indexQuery` models the behaviour of `this.index.query` on the given
parameters. -/
noncomputable def upstashGetExistingIds {E : Type _}
    (indexQuery : UpstashQueryParams → Except E (List UpstashHit)) : List String :=
  match indexQuery ⟨List.replicate 1536 0, 100, false⟩ with
  | .ok results => results.map (·.id)
  | .error _ => []

/-- Fully evaluated behaviour of `withRetry` for the source's fixed
`retryAttempts = 3`. -/
lemma withRetry_eval {E : Type _} {α : Type _} (fallback : E) (op : ℕ → Except E α) :
    withRetry fallback op =
      match op 0 with
      | .ok a => (.ok a, [], [0])
      | .error _ =>
        match op 1 with
        | .ok a => (.ok a, [retryDelay * 2 ^ 0], [0, 1])
        | .error _ =>
          match op 2 with
          | .ok a => (.ok a, [retryDelay * 2 ^ 0, retryDelay * 2 ^ 1], [0, 1, 2])
          | .error e2 => (.error e2, [retryDelay * 2 ^ 0, retryDelay * 2 ^ 1], [0, 1, 2]) := by
  rcases h0 : op 0 with e0 | a0 <;> rcases h1 : op 1 with e1 | a1 <;>
    rcases h2 : op 2 with e2 | a2 <;>
    simp [withRetry, retryAttempts, withRetryGo, h0, h1, h2]

/-- C4: the retry wrapper makes at most 3 attempts; a success on any
attempt (including the 3rd) is returned with no error surfaced; if all
3 attempts fail the last observed error is surfaced; the delay slept
before retry attempt `i + 1` is `retryDelay * 2 ^ i`, and no delay
follows the final attempt. -/
theorem withRetry_spec {E : Type _} {α : Type _} (fallback : E) (op : ℕ → Except E α) :
    (withRetry fallback op).2.2.length ≤ 3
    ∧ (∀ a, op 0 = .ok a → withRetry fallback op = (.ok a, [], [0]))
    ∧ (∀ e0 a, op 0 = .error e0 → op 1 = .ok a →
        withRetry fallback op = (.ok a, [retryDelay * 2 ^ 0], [0, 1]))
    ∧ (∀ e0 e1 a, op 0 = .error e0 → op 1 = .error e1 → op 2 = .ok a →
        withRetry fallback op = (.ok a, [retryDelay * 2 ^ 0, retryDelay * 2 ^ 1], [0, 1, 2]))
    ∧ (∀ e0 e1 e2, op 0 = .error e0 → op 1 = .error e1 → op 2 = .error e2 →
        withRetry fallback op =
          (.error e2, [retryDelay * 2 ^ 0, retryDelay * 2 ^ 1], [0, 1, 2])) := by
  rw [withRetry_eval]
  refine ⟨?_, ?_, ?_, ?_, ?_⟩
  · rcases h0 : op 0 with e0 | a0 <;> rcases h1 : op 1 with e1 | a1 <;>
      rcases h2 : op 2 with e2 | a2 <;> simp [h0, h1, h2]
  · intro a h0; simp [h0]
  · intro e0 a h0 h1; simp [h0, h1]
  · intro e0 e1 a h0 h1 h2; simp [h0, h1, h2]
  · intro e0 e1 e2 h0 h1 h2; simp [h0, h1, h2]

/-- Witness for C4: an operation failing on all three attempts
surfaces the last error after backoffs of 1000 and 2000 ms. -/
theorem withRetry_spec_witness :
    withRetry (0 : ℕ) (fun _ => (.error 1 : Except ℕ ℕ)) =
      (.error 1, [retryDelay * 2 ^ 0, retryDelay * 2 ^ 1], [0, 1, 2]) :=
  (withRetry_spec (0 : ℕ) (fun _ => (.error 1 : Except ℕ ℕ))).2.2.2.2 1 1 1 rfl rfl rfl

/-- C5: with the backend selector set to the remote-managed backend, a
missing (falsy) URL or token makes `createVectorDatabase` return the
in-memory variant, and both credentials present (truthy) make it
return the remote-managed variant. -/
theorem createVectorDatabase_spec (cfg : Config) (h : cfg.VECTOR_DB_TYPE = .upstash) :
    ((truthy cfg.UPSTASH_VECTOR_URL = false ∨ truthy cfg.UPSTASH_VECTOR_TOKEN = false) →
      createVectorDatabase cfg = .simple)
    ∧ (truthy cfg.UPSTASH_VECTOR_URL = true → truthy cfg.UPSTASH_VECTOR_TOKEN = true →
      createVectorDatabase cfg = .upstash) := by
  constructor
  · intro hcred
    unfold createVectorDatabase
    rw [if_neg, h]
    rintro ⟨-, hu, ht⟩
    rcases hcred with hc | hc <;> simp_all
  · intro hu ht
    unfold createVectorDatabase
    rw [if_pos ⟨h, hu, ht⟩]

/-- Witness for C5: selector `upstash` with both credentials unset
yields the in-memory backend. -/
theorem createVectorDatabase_spec_witness :
    createVectorDatabase ⟨.upstash, none, none⟩ = .simple :=
  (createVectorDatabase_spec ⟨.upstash, none, none⟩ rfl).1 (Or.inl rfl)

/-- `cosineSimilarity` errors exactly on a length mismatch. -/
lemma cosineSimilarity_error_iff (a b : List ℝ) :
    cosineSimilarity a b = .error .dimensionMismatch ↔ a.length ≠ b.length := by
  unfold cosineSimilarity
  split_ifs with h h2 <;> simp [h]

/-- The scoring pass errors exactly when some corpus vector has a
length different from the query vector. -/
lemma computeSimilarities_error_iff (q : List ℝ) (db : List Doc) :
    computeSimilarities q db = .error .dimensionMismatch ↔
      ∃ d ∈ db, q.length ≠ d.embedding.length := by
  induction db with
  | nil => simp [computeSimilarities]
  | cons d ds ih =>
    rcases hc : cosineSimilarity q d.embedding with e | s
    · obtain rfl : e = DbError.dimensionMismatch := by cases e; rfl
      have hlen := (cosineSimilarity_error_iff q d.embedding).mp hc
      simp only [computeSimilarities, hc]
      constructor
      · intro _; exact ⟨d, List.mem_cons_self d ds, hlen⟩
      · intro _; trivial
    · have hlen : ¬ q.length ≠ d.embedding.length := by
        intro hne
        have := (cosineSimilarity_error_iff q d.embedding).mpr hne
        rw [hc] at this
        cases this
      rcases hr : computeSimilarities q ds with e | tail
      · obtain rfl : e = DbError.dimensionMismatch := by cases e; rfl
        have hds := ih.mp hr
        simp only [computeSimilarities, hc, hr]
        constructor
        · intro _
          obtain ⟨x, hx, hnx⟩ := hds
          exact ⟨x, List.mem_cons_of_mem d hx, hnx⟩
        · intro _; trivial
      · have hds : ¬ ∃ x ∈ ds, q.length ≠ x.embedding.length := fun hx => by
          have := ih.mpr hx
          rw [hr] at this
          cases this
        simp only [computeSimilarities, hc, hr]
        constructor
        · intro hfalse; cases hfalse
        · rintro ⟨x, hx, hnx⟩
          rcases List.mem_cons.mp hx with rfl | hx'
          · exact absurd hnx hlen
          · exact absurd ⟨x, hx', hnx⟩ hds

/-- C6: the similarity function fails with the dimension-mismatch error
exactly when the two vectors differ in length, and `query` surfaces
that same error exactly when the corpus is nonempty and contains a
vector whose length differs from the query vector (it is never caught
or retried on the in-memory path). -/
theorem dimensionMismatch_spec (a b q : List ℝ) (k : ℕ) (db : List Doc) :
    (cosineSimilarity a b = .error .dimensionMismatch ↔ a.length ≠ b.length)
    ∧ (queryDocs q k db = .error .dimensionMismatch ↔
        db ≠ [] ∧ ∃ d ∈ db, q.length ≠ d.embedding.length) := by
  refine ⟨cosineSimilarity_error_iff a b, ?_⟩
  unfold queryDocs
  rcases db with _ | ⟨d, ds⟩
  · simp
  · rw [if_neg (by simp)]
    rcases hr : computeSimilarities q (d :: ds) with e | sims
    · obtain rfl : e = DbError.dimensionMismatch := by cases e; rfl
      have hmem := (computeSimilarities_error_iff q (d :: ds)).mp hr
      simp only [hr]
      constructor
      · intro _
        exact ⟨List.cons_ne_nil d ds, hmem⟩
      · intro _
        trivial
    · have hno : ¬ ∃ x ∈ d :: ds, q.length ≠ x.embedding.length := fun hx => by
        have := (computeSimilarities_error_iff q (d :: ds)).mpr hx
        rw [hr] at this
        cases this
      simp only [hr]
      constructor
      · intro hfalse
        exact Except.noConfusion hfalse
      · rintro ⟨-, hx⟩
        exact absurd hx hno

/-- C7: when the bootstrap query of the remote adapter's
`getExistingIds` fails, the method returns the empty list; the error is
swallowed by the local `try/catch` (the return type itself carries no
error channel, so nothing can propagate). -/
theorem upstashGetExistingIds_spec {E : Type _}
    (indexQuery : UpstashQueryParams → Except E (List UpstashHit)) (e : E)
    (h : indexQuery ⟨List.replicate 1536 0, 100, false⟩ = .error e) :
    upstashGetExistingIds indexQuery = [] := by
  unfold upstashGetExistingIds
  rw [h]

/-- Witness for C7: a bootstrap query that always throws yields an
empty id list. -/
theorem upstashGetExistingIds_spec_witness :
    upstashGetExistingIds (fun _ => (.error 0 : Except ℕ (List UpstashHit))) = [] :=
  upstashGetExistingIds_spec (fun _ => (.error 0 : Except ℕ (List UpstashHit))) 0 rfl

/-- C10: `query` and `getExistingIds` are pure reads of the corpus —
the state they return is the state they were given, on every path —
while `addDocuments` is the operation that installs a new corpus. -/
theorem query_getExistingIds_frame (q : List ℝ) (k : ℕ) (s : SimpleDB) :
    (queryM q k s).2 = s ∧ (getExistingIdsM s).2 = s :=
  ⟨rfl, rfl⟩

instance : IsTotal ScoredDoc simCompare :=
  ⟨fun a b => le_total b.similarity a.similarity⟩

instance : IsTrans ScoredDoc simCompare :=
  ⟨fun _ _ _ hab hbc => le_trans hbc hab⟩

/-- Inserting an element whose similarity is `c` leaves it in front of
every equal-similarity element it is inserted among: the elements
passed over all have strictly larger similarity. -/
lemma filter_orderedInsert_sim_eq (c : ℝ) (x : ScoredDoc) (l : List ScoredDoc)
    (hx : x.similarity = c) :
    (List.orderedInsert simCompare x l).filter (fun y => decide (y.similarity = c)) =
      x :: l.filter (fun y => decide (y.similarity = c)) := by
  induction l with
  | nil => simp [List.orderedInsert, hx]
  | cons b l ih =>
    rw [List.orderedInsert]
    by_cases hr : simCompare x b
    · rw [if_pos hr]
      simp [List.filter_cons, hx]
    · rw [if_neg hr]
      have hb : ¬(b.similarity = c) := fun hbc => hr (le_of_eq (hbc.trans hx.symm))
      simp [List.filter_cons, hb, ih]

/-- Inserting an element of a different similarity does not disturb the
subsequence of similarity-`c` elements. -/
lemma filter_orderedInsert_sim_ne (c : ℝ) (x : ScoredDoc) (l : List ScoredDoc)
    (hx : x.similarity ≠ c) :
    (List.orderedInsert simCompare x l).filter (fun y => decide (y.similarity = c)) =
      l.filter (fun y => decide (y.similarity = c)) := by
  induction l with
  | nil => simp [List.orderedInsert, hx]
  | cons b l ih =>
    rw [List.orderedInsert]
    by_cases hr : simCompare x b
    · rw [if_pos hr]
      simp [List.filter_cons, hx]
    · rw [if_neg hr]
      simp [List.filter_cons, ih]

/-- Stability of the sort used by `query`: for every score `c`, the
equal-score elements come out of the sort in exactly the order they
went in. -/
lemma filter_insertionSort_sim (c : ℝ) (l : List ScoredDoc) :
    (List.insertionSort simCompare l).filter (fun y => decide (y.similarity = c)) =
      l.filter (fun y => decide (y.similarity = c)) := by
  induction l with
  | nil => simp [List.insertionSort]
  | cons a l ih =>
    rw [List.insertionSort]
    by_cases ha : a.similarity = c
    · rw [filter_orderedInsert_sim_eq c a _ ha, ih]
      simp [List.filter_cons, ha]
    · rw [filter_orderedInsert_sim_ne c a _ ha, ih]
      simp [List.filter_cons, ha]

/-- The `{id, text, distance}` triple a scored record is mapped to in
the result of `query`. -/
def toEntry (x : ScoredDoc) : String × String × ℝ :=
  (x.id, x.text, x.distance)

/-- The `{id, text, distance}` triple a corpus record contributes to a
query with embedding `q`: its id, its text, and `1 -` its cosine
similarity to `q` (nothing, if scoring it would throw). -/
noncomputable def scoredEntry (q : List ℝ) (d : Doc) : Option (String × String × ℝ) :=
  match cosineSimilarity q d.embedding with
  | .ok s => some (d.id, d.text, 1 - s)
  | .error _ => none

/-- The entries of a `RagResult`, read off positionally from its three
parallel lists. -/
def entriesOf (r : RagResult) : List (String × String × ℝ) :=
  r.ids.zip (r.documents.zip r.distances)

lemma zip_maps (l : List ScoredDoc) :
    (l.map (·.id)).zip ((l.map (·.text)).zip (l.map (·.distance))) = l.map toEntry := by
  induction l with
  | nil => rfl
  | cons a l ih => simp [toEntry, ih]

/-- What a successful scoring pass guarantees: one scored record per
corpus record, each carrying the record's id and text, its cosine
similarity as score and `1 - score` as distance; positionally, the
corpus's scored entries are exactly the entries of the pass. -/
lemma computeSimilarities_ok_spec (q : List ℝ) (db : List Doc) (sims : List ScoredDoc)
    (h : computeSimilarities q db = .ok sims) :
    sims.length = db.length
    ∧ (∀ x ∈ sims, ∃ d ∈ db, cosineSimilarity q d.embedding = .ok x.similarity
        ∧ x.id = d.id ∧ x.text = d.text ∧ x.distance = 1 - x.similarity)
    ∧ db.filterMap (scoredEntry q) = sims.map toEntry := by
  induction db generalizing sims with
  | nil =>
    simp only [computeSimilarities, Except.ok.injEq] at h
    subst h
    simp
  | cons d ds ih =>
    simp only [computeSimilarities] at h
    rcases hc : cosineSimilarity q d.embedding with e | s <;> rw [hc] at h
    · exact absurd h (by simp)
    · rcases hr : computeSimilarities q ds with e | tail <;> rw [hr] at h
      · exact absurd h (by simp)
      · simp only [Except.ok.injEq] at h
        subst h
        obtain ⟨hlen, hmem, hent⟩ := ih tail hr
        refine ⟨by simp [hlen], ?_, ?_⟩
        · rintro x hx
          rcases List.mem_cons.mp hx with rfl | hx'
          · exact ⟨d, List.mem_cons_self d ds, hc, rfl, rfl, rfl⟩
          · obtain ⟨d', hd', h1, h2, h3, h4⟩ := hmem x hx'
            exact ⟨d', List.mem_cons_of_mem d hd', h1, h2, h3, h4⟩
        · simp only [List.filterMap_cons, scoredEntry, hc, hent]
          simp [toEntry]

/-- C1: a successful `query(v, k)` returns at most `k` entries (three
parallel lists of a common length), ordered by non-decreasing distance
(equivalently non-increasing similarity); for every distance value, the
equal-score entries form a prefix of the corpus's equal-score scored
entries in corpus iteration order (stable ties); and every returned
entry is the `(id, text, 1 - similarity)` image of a corpus record. -/
theorem query_ranking_spec (q : List ℝ) (k : ℕ) (s : SimpleDB) (r : RagResult)
    (h : (queryM q k s).1 = .ok r) :
    (r.ids.length ≤ k ∧ r.documents.length = r.ids.length
      ∧ r.distances.length = r.ids.length)
    ∧ List.Sorted (· ≤ ·) r.distances
    ∧ (∀ e ∈ entriesOf r, ∃ d ∈ s.documents, scoredEntry q d = some e)
    ∧ (∀ c : ℝ, (entriesOf r).filter (fun e => decide (e.2.2 = c)) <+:
        (s.documents.filterMap (scoredEntry q)).filter (fun e => decide (e.2.2 = c))) := by
  unfold queryM queryDocs at h
  by_cases hemp : s.documents.length = 0
  · rw [if_pos hemp] at h
    simp only [Except.ok.injEq] at h
    subst h
    rw [List.length_eq_zero] at hemp
    refine ⟨⟨by simp, by simp, by simp⟩, by simp [List.Sorted], ?_, ?_⟩
    · intro e he
      simp [entriesOf] at he
    · intro c
      simp only [entriesOf, List.zip_nil_left, List.filter_nil]
      exact List.nil_prefix
  · rw [if_neg hemp] at h
    rcases hcs : computeSimilarities q s.documents with e | sims <;> rw [hcs] at h
    · exact absurd h (by simp)
    · simp only [Except.ok.injEq] at h
      subst h
      obtain ⟨hlen, hmem, hent⟩ := computeSimilarities_ok_spec q s.documents sims hcs
      set S := List.insertionSort simCompare sims with hSdef
      have hSsorted : S.Pairwise simCompare := List.sorted_insertionSort simCompare sims
      have hSperm : S.Perm sims := List.perm_insertionSort simCompare sims
      have htopsub : List.Sublist (S.take k) S := List.take_sublist k S
      have htopPW : (S.take k).Pairwise simCompare := List.Pairwise.sublist htopsub hSsorted
      have hmemS : ∀ x ∈ S.take k, x ∈ sims := fun x hx =>
        hSperm.mem_iff.mp (htopsub.subset hx)
      have hdistTop : ∀ x ∈ S.take k, x.distance = 1 - x.similarity := by
        intro x hx
        obtain ⟨d, -, -, -, -, h4⟩ := hmem x (hmemS x hx)
        exact h4
      have hdistSims : ∀ x ∈ sims, x.distance = 1 - x.similarity := by
        intro x hx
        obtain ⟨d, -, -, -, -, h4⟩ := hmem x hx
        exact h4
      have hE : entriesOf ⟨(S.take k).map (·.text), (S.take k).map (·.id),
          (S.take k).map (·.distance)⟩ = (S.take k).map toEntry := by
        simp only [entriesOf]
        exact zip_maps (S.take k)
      refine ⟨⟨?_, ?_, ?_⟩, ?_, ?_, ?_⟩
      · simp only [List.length_map, List.length_take]
        exact min_le_left _ _
      · simp [List.length_map]
      · simp [List.length_map]
      · have hPW : (S.take k).Pairwise (fun a b => a.distance ≤ b.distance) :=
          htopPW.imp_of_mem (fun ha hb hr => by
            rw [hdistTop _ ha, hdistTop _ hb]
            exact sub_le_sub_left hr 1)
        exact List.pairwise_map.mpr hPW
      · intro e he
        rw [hE] at he
        obtain ⟨x, hx, rfl⟩ := List.mem_map.mp he
        obtain ⟨d, hd, h1, h2, h3, h4⟩ := hmem x (hmemS x hx)
        refine ⟨d, hd, ?_⟩
        simp [scoredEntry, h1, toEntry, h2, h3, h4]
      · intro c
        rw [hE, hent, List.filter_map, List.filter_map]
        apply List.IsPrefix.map
        show (S.take k).filter (fun x => decide (x.distance = c)) <+:
          sims.filter (fun x => decide (x.distance = c))
        have e1 : (S.take k).filter (fun x => decide (x.distance = c)) =
            (S.take k).filter (fun x => decide (x.similarity = 1 - c)) :=
          List.filter_congr (fun x hx => by
            rw [hdistTop x hx]
            exact decide_eq_decide.mpr (by constructor <;> intro h <;> linarith))
        have e2 : sims.filter (fun x => decide (x.distance = c)) =
            sims.filter (fun x => decide (x.similarity = 1 - c)) :=
          List.filter_congr (fun x hx => by
            rw [hdistSims x hx]
            exact decide_eq_decide.mpr (by constructor <;> intro h <;> linarith))
        rw [e1, e2, ← filter_insertionSort_sim (1 - c) sims]
        exact List.IsPrefix.filter _ (List.take_prefix k S)

/-- C8: `query` on an empty corpus returns the empty result set for
every `k`, and in general each of the three result lists of a
successful query has length at most `min k (corpus size)`. -/
theorem query_empty_bound_spec (q : List ℝ) (k : ℕ) (s : SimpleDB) :
    (s.documents = [] → (queryM q k s).1 = .ok ⟨[], [], []⟩)
    ∧ (∀ r, (queryM q k s).1 = .ok r →
        r.documents.length ≤ min k s.documents.length
        ∧ r.ids.length ≤ min k s.documents.length
        ∧ r.distances.length ≤ min k s.documents.length) := by
  constructor
  · intro h
    simp [queryM, queryDocs, h]
  · intro r h
    unfold queryM queryDocs at h
    by_cases hemp : s.documents.length = 0
    · rw [if_pos hemp] at h
      simp only [Except.ok.injEq] at h
      subst h
      simp
    · rw [if_neg hemp] at h
      rcases hcs : computeSimilarities q s.documents with e | sims <;> rw [hcs] at h
      · exact absurd h (by simp)
      · simp only [Except.ok.injEq] at h
        subst h
        obtain ⟨hlen, -, -⟩ := computeSimilarities_ok_spec q s.documents sims hcs
        have hS : (List.insertionSort simCompare sims).length = s.documents.length := by
          rw [List.length_insertionSort, hlen]
        refine ⟨?_, ?_, ?_⟩ <;> simp [List.length_take, hS]

/-- Witness for C8: a query against the empty corpus returns the empty
result set. -/
theorem query_empty_bound_spec_witness :
    (queryM [(1 : ℝ)] 5 ⟨[]⟩).1 = .ok ⟨[], [], []⟩ :=
  (query_empty_bound_spec [(1 : ℝ)] 5 ⟨[]⟩).1 rfl

/-- Every entry of a successful query is the scored image of some
corpus record (shared helper for the replacement property). -/
lemma queryM_entries_image (q : List ℝ) (k : ℕ) (s : SimpleDB) (r : RagResult)
    (h : (queryM q k s).1 = .ok r) :
    ∀ e ∈ entriesOf r, ∃ d ∈ s.documents, scoredEntry q d = some e := by
  unfold queryM queryDocs at h
  by_cases hemp : s.documents.length = 0
  · rw [if_pos hemp] at h
    simp only [Except.ok.injEq] at h
    subst h
    intro e he
    simp [entriesOf] at he
  · rw [if_neg hemp] at h
    rcases hcs : computeSimilarities q s.documents with e | sims <;> rw [hcs] at h
    · exact absurd h (by simp)
    · simp only [Except.ok.injEq] at h
      subst h
      obtain ⟨-, hmem, -⟩ := computeSimilarities_ok_spec q s.documents sims hcs
      set S := List.insertionSort simCompare sims
      intro e he
      have hE : entriesOf ⟨(S.take k).map (·.text), (S.take k).map (·.id),
          (S.take k).map (·.distance)⟩ = (S.take k).map toEntry := by
        simp only [entriesOf]
        exact zip_maps (S.take k)
      rw [hE] at he
      obtain ⟨x, hx, rfl⟩ := List.mem_map.mp he
      have hxsims : x ∈ sims :=
        (List.perm_insertionSort simCompare sims).mem_iff.mp
          ((List.take_sublist k S).subset hx)
      obtain ⟨d, hd, h1, h2, h3, h4⟩ := hmem x hxsims
      exact ⟨d, hd, by simp [scoredEntry, h1, toEntry, h2, h3, h4]⟩

/-- The record that ends up stored for id `tid` after the
`addDocuments` loop: the triple at the last position whose id is `tid`
(later positions overwrite earlier ones). -/
def lastAdded (tid : String) : List String → List (List ℝ) → List String → Option Doc
  | text :: ts, emb :: es, i :: is =>
    match lastAdded tid ts es is with
    | some doc => some doc
    | none => if i = tid then some ⟨i, text, emb⟩ else none
  | _, _, _ => none

lemma lastAdded_id (tid : String) :
    ∀ (ts : List String) (es : List (List ℝ)) (is : List String) (doc : Doc),
    lastAdded tid ts es is = some doc → doc.id = tid := by
  intro ts
  induction ts with
  | nil => intro es is doc h; simp [lastAdded] at h
  | cons t ts ih =>
    intro es is doc h
    rcases es with _ | ⟨e, es⟩
    · simp [lastAdded] at h
    rcases is with _ | ⟨i, is⟩
    · simp [lastAdded] at h
    simp only [lastAdded] at h
    rcases hl : lastAdded tid ts es is with _ | doc' <;> rw [hl] at h
    · by_cases hi : i = tid
      · rw [if_pos hi] at h
        simp only [Option.some.injEq] at h
        subst h
        exact hi
      · rw [if_neg hi] at h
        exact absurd h (by simp)
    · simp only [Option.some.injEq] at h
      subst h
      exact ih es is _ hl

/-- Filtering away one id and then selecting a different id is the
same as selecting that id directly. -/
lemma filter_ne_then_eq (i tid : String) (hne : i ≠ tid) (db : List Doc) :
    (db.filter fun d => decide (d.id ≠ i)).filter (fun d => decide (d.id = tid)) =
      db.filter (fun d => decide (d.id = tid)) := by
  rw [List.filter_filter]
  refine List.filter_congr (fun d _ => ?_)
  by_cases h : d.id = tid
  · simp [h, Ne.symm hne]
  · simp [h]

/-- Selecting an id right after filtering that same id away yields
nothing. -/
lemma filter_ne_then_eq_self (tid : String) (db : List Doc) :
    (db.filter fun d => decide (d.id ≠ tid)).filter (fun d => decide (d.id = tid)) = [] := by
  rw [List.filter_filter]
  refine List.filter_eq_nil_iff.mpr (fun d _ => ?_)
  by_cases h : d.id = tid <;> simp [h]

/-- What the `addDocuments` loop leaves behind for a given id: the last
pushed triple with that id, if any, otherwise whatever the initial
corpus held for it. -/
lemma addDocumentsList_filter (tid : String) :
    ∀ (ts : List String) (es : List (List ℝ)) (is : List String) (db : List Doc),
    (addDocumentsList ts es is db).filter (fun d => decide (d.id = tid)) =
      match lastAdded tid ts es is with
      | some doc => [doc]
      | none => db.filter (fun d => decide (d.id = tid)) := by
  intro ts
  induction ts with
  | nil =>
    intro es is db
    simp [addDocumentsList, lastAdded]
  | cons t ts ih =>
    intro es is db
    rcases es with _ | ⟨e, es⟩
    · simp [addDocumentsList, lastAdded]
    rcases is with _ | ⟨i, is⟩
    · simp [addDocumentsList, lastAdded]
    simp only [addDocumentsList, lastAdded]
    rw [ih es is]
    rcases hl : lastAdded tid ts es is with _ | doc'
    · by_cases hi : i = tid
      · rw [if_pos hi]
        subst hi
        rw [List.filter_append, filter_ne_then_eq_self]
        simp
      · rw [if_neg hi]
        rw [List.filter_append, filter_ne_then_eq i tid hi]
        simp [hi]
    · rfl

/-- C2: adding documents whose id list contains `tid` (already present
in the corpus) replaces the prior record in full: afterwards exactly
one record carries that id — the last triple pushed for it, with the
new text and new vector — and any entry a subsequent successful query
returns under that id is the image of the new record, never of the
discarded one. -/
theorem addDocuments_replace_spec (ts : List String) (es : List (List ℝ))
    (is : List String) (s : SimpleDB) (tid : String) (doc : Doc)
    (_hpresent : tid ∈ s.documents.map (·.id))
    (hlast : lastAdded tid ts es is = some doc) :
    ((addDocumentsM ts es is s).documents.filter (fun d => decide (d.id = tid)) = [doc])
    ∧ (∀ q k r, (queryM q k (addDocumentsM ts es is s)).1 = .ok r →
        ∀ e ∈ entriesOf r, e.1 = tid →
          ∃ sc, cosineSimilarity q doc.embedding = .ok sc
            ∧ e = (doc.id, doc.text, 1 - sc)) := by
  have hfilter : (addDocumentsM ts es is s).documents.filter
      (fun d => decide (d.id = tid)) = [doc] := by
    show (addDocumentsList ts es is s.documents).filter _ = [doc]
    rw [addDocumentsList_filter tid ts es is s.documents, hlast]
  refine ⟨hfilter, ?_⟩
  intro q k r h e he he1
  obtain ⟨d, hd, hscored⟩ := queryM_entries_image q k _ r h e he
  simp only [scoredEntry] at hscored
  rcases hc : cosineSimilarity q d.embedding with e' | sc <;> rw [hc] at hscored
  · exact absurd hscored (by simp)
  · simp only [Option.some.injEq] at hscored
    have hid : d.id = tid := by
      rw [← hscored] at he1
      exact he1
    have hdmem : d ∈ (addDocumentsM ts es is s).documents.filter
        (fun d => decide (d.id = tid)) :=
      List.mem_filter.mpr ⟨hd, by simp [hid]⟩
    rw [hfilter] at hdmem
    have hd_eq : d = doc := by simpa using hdmem
    subst hd_eq
    exact ⟨sc, hc, hscored.symm⟩

/-- Witness for C2: after re-adding id "1" with the text "banana" and
vector `[0, 1]` over a corpus holding ("1", "apple", `[1, 0]`), the
corpus holds exactly the new record under id "1". -/
theorem addDocuments_replace_spec_witness :
    (addDocumentsM ["banana"] [[(0 : ℝ), 1]] ["1"]
        ⟨[⟨"1", "apple", [1, 0]⟩]⟩).documents.filter
      (fun d => decide (d.id = "1")) = [⟨"1", "banana", [(0 : ℝ), 1]⟩] :=
  (addDocuments_replace_spec ["banana"] [[(0 : ℝ), 1]] ["1"]
    ⟨[⟨"1", "apple", [1, 0]⟩]⟩ "1" ⟨"1", "banana", [(0 : ℝ), 1]⟩
    (by simp) (by simp [lastAdded])).1

/-- Each loop iteration of `addDocuments` preserves id uniqueness: the
pushed id was just filtered out of the corpus. -/
lemma addDocumentsList_nodup :
    ∀ (ts : List String) (es : List (List ℝ)) (is : List String) (db : List Doc),
    (db.map (·.id)).Nodup → ((addDocumentsList ts es is db).map (·.id)).Nodup := by
  intro ts
  induction ts with
  | nil => intro es is db h; simpa [addDocumentsList] using h
  | cons t ts ih =>
    intro es is db h
    rcases es with _ | ⟨e, es⟩
    · simpa [addDocumentsList] using h
    rcases is with _ | ⟨i, is⟩
    · simpa [addDocumentsList] using h
    simp only [addDocumentsList]
    apply ih
    rw [List.map_append]
    refine List.Nodup.append ?_ (List.nodup_singleton i) ?_
    · exact List.Nodup.sublist (List.Sublist.map _ (List.filter_sublist db)) h
    · intro a ha hb
      simp only [List.map_cons, List.map_nil, List.mem_singleton] at hb
      subst hb
      obtain ⟨d, hdmem, hdi⟩ := List.mem_map.mp ha
      have hne := List.of_mem_filter hdmem
      rw [decide_eq_true_eq] at hne
      exact hne hdi

/-- C9: id uniqueness is an invariant of the corpus — starting from a
corpus with pairwise distinct ids, any `addDocuments` call (even one
whose id argument repeats an id) leaves the ids pairwise distinct, so
each id maps to at most one record. -/
theorem addDocuments_unique_ids_spec (ts : List String) (es : List (List ℝ))
    (is : List String) (s : SimpleDB) (h : (s.documents.map (·.id)).Nodup) :
    ((addDocumentsM ts es is s).documents.map (·.id)).Nodup :=
  addDocumentsList_nodup ts es is s.documents h

/-- Witness for C9: adding two documents that share the id "2" to a
unique-id corpus yields a corpus whose ids are still pairwise
distinct. -/
theorem addDocuments_unique_ids_spec_witness :
    ((addDocumentsM ["x", "y"] [[(1 : ℝ)], [(2 : ℝ)]] ["2", "2"]
        ⟨[⟨"1", "a", [(0 : ℝ)]⟩]⟩).documents.map (·.id)).Nodup :=
  addDocuments_unique_ids_spec ["x", "y"] [[(1 : ℝ)], [(2 : ℝ)]] ["2", "2"]
    ⟨[⟨"1", "a", [(0 : ℝ)]⟩]⟩ (by simp)

/-- Witness for C1: querying a one-record corpus with its own vector
returns that record at distance `0`, in sorted order. -/
theorem query_ranking_spec_witness :
    (queryM [(1 : ℝ), 0] 2 ⟨[⟨"A", "apple", [1, 0]⟩]⟩).1 = .ok ⟨["apple"], ["A"], [0]⟩
    ∧ List.Sorted (· ≤ ·) (⟨["apple"], ["A"], [0]⟩ : RagResult).distances := by
  have hsq : sqSum [(1 : ℝ), 0] = 1 := by norm_num [sqSum]
  have hcos : cosineSimilarity [(1 : ℝ), 0] [1, 0] = .ok 1 := by
    unfold cosineSimilarity
    rw [if_neg (by norm_num), if_neg (by rw [hsq, Real.sqrt_one]; norm_num)]
    rw [hsq, Real.sqrt_one]
    norm_num [dotList]
  have hq : (queryM [(1 : ℝ), 0] 2 ⟨[⟨"A", "apple", [1, 0]⟩]⟩).1 =
      .ok ⟨["apple"], ["A"], [0]⟩ := by
    simp [queryM, queryDocs, computeSimilarities, hcos, List.insertionSort,
      List.orderedInsert]
  exact ⟨hq, (query_ranking_spec [(1 : ℝ), 0] 2 ⟨[⟨"A", "apple", [1, 0]⟩]⟩
    ⟨["apple"], ["A"], [0]⟩ hq).2.1⟩

lemma dotList_eq_sum_range (a : List ℝ) :
    ∀ b : List ℝ, dotList a b =
      ∑ i ∈ Finset.range (min a.length b.length), a.getD i 0 * b.getD i 0 := by
  induction a with
  | nil => intro b; simp [dotList]
  | cons x a ih =>
    intro b
    rcases b with _ | ⟨y, b⟩
    · simp [dotList]
    · simp only [dotList, List.zip_cons_cons, List.map_cons, List.sum_cons,
        List.length_cons, Nat.succ_min_succ, Finset.sum_range_succ',
        List.getD_cons_succ, List.getD_cons_zero]
      rw [← dotList, ih b]
      ring

lemma sqSum_eq_sum_range (v : List ℝ) :
    sqSum v = ∑ i ∈ Finset.range v.length, v.getD i 0 * v.getD i 0 := by
  induction v with
  | nil => simp [sqSum]
  | cons x v ih =>
    simp only [sqSum, List.map_cons, List.sum_cons, List.length_cons,
      Finset.sum_range_succ', List.getD_cons_succ, List.getD_cons_zero]
    rw [← sqSum, ih]
    ring

lemma sqSum_nonneg (v : List ℝ) : 0 ≤ sqSum v := by
  induction v with
  | nil => simp [sqSum]
  | cons x v ih =>
    simp only [sqSum, List.map_cons, List.sum_cons]
    have := mul_self_nonneg x
    have h2 : (0 : ℝ) ≤ (v.map fun x => x * x).sum := ih
    linarith

/-- Cauchy-Schwarz for the loop accumulators of `cosineSimilarity`. -/
lemma dotList_sq_le (a b : List ℝ) (h : a.length = b.length) :
    dotList a b * dotList a b ≤ sqSum a * sqSum b := by
  rw [dotList_eq_sum_range, sqSum_eq_sum_range, sqSum_eq_sum_range, h, min_self]
  have hcs := Finset.sum_mul_sq_le_sq_mul_sq (Finset.range b.length)
    (fun i => a.getD i 0) (fun i => b.getD i 0)
  simpa [pow_two] using hcs

/-- C3: on equal-length vectors, `cosineSimilarity` returns exactly
`dot(a,b) / (‖a‖ * ‖b‖)` when both norms are nonzero, that value lies
in `[-1, 1]`, and it returns exactly `0` when either norm is zero. -/
theorem cosineSimilarity_value_spec (a b : List ℝ) (hlen : a.length = b.length) :
    (Real.sqrt (sqSum a) ≠ 0 → Real.sqrt (sqSum b) ≠ 0 →
      cosineSimilarity a b =
          .ok (dotList a b / (Real.sqrt (sqSum a) * Real.sqrt (sqSum b)))
        ∧ -1 ≤ dotList a b / (Real.sqrt (sqSum a) * Real.sqrt (sqSum b))
        ∧ dotList a b / (Real.sqrt (sqSum a) * Real.sqrt (sqSum b)) ≤ 1)
    ∧ ((Real.sqrt (sqSum a) = 0 ∨ Real.sqrt (sqSum b) = 0) →
      cosineSimilarity a b = .ok 0) := by
  constructor
  · intro ha hb
    have hcond : ¬(Real.sqrt (sqSum a) = 0 ∨ Real.sqrt (sqSum b) = 0) := by
      rintro (h | h)
      · exact ha h
      · exact hb h
    have hApos : 0 < Real.sqrt (sqSum a) :=
      lt_of_le_of_ne (Real.sqrt_nonneg _) (Ne.symm ha)
    have hBpos : 0 < Real.sqrt (sqSum b) :=
      lt_of_le_of_ne (Real.sqrt_nonneg _) (Ne.symm hb)
    have hNpos : 0 < Real.sqrt (sqSum a) * Real.sqrt (sqSum b) :=
      mul_pos hApos hBpos
    have hAsq : Real.sqrt (sqSum a) * Real.sqrt (sqSum a) = sqSum a :=
      Real.mul_self_sqrt (sqSum_nonneg a)
    have hBsq : Real.sqrt (sqSum b) * Real.sqrt (sqSum b) = sqSum b :=
      Real.mul_self_sqrt (sqSum_nonneg b)
    have hNsq : (Real.sqrt (sqSum a) * Real.sqrt (sqSum b))
        * (Real.sqrt (sqSum a) * Real.sqrt (sqSum b)) = sqSum a * sqSum b := by
      rw [mul_mul_mul_comm, hAsq, hBsq]
    have hdotsq := dotList_sq_le a b hlen
    have h1 : dotList a b ≤ Real.sqrt (sqSum a) * Real.sqrt (sqSum b) := by
      nlinarith [hdotsq, hNpos, hNsq]
    have h2 : -(Real.sqrt (sqSum a) * Real.sqrt (sqSum b)) ≤ dotList a b := by
      nlinarith [hdotsq, hNpos, hNsq]
    refine ⟨?_, ?_, ?_⟩
    · unfold cosineSimilarity
      rw [if_neg (by simp [hlen]), if_neg hcond]
    · rw [le_div_iff₀ hNpos, neg_one_mul]
      exact h2
    · rw [div_le_one hNpos]
      exact h1
  · intro h0
    unfold cosineSimilarity
    rw [if_neg (by simp [hlen]), if_pos h0]

/-- Witness for C3: on the one-dimensional vectors `[1]` and `[1]`
(equal lengths, nonzero norms) the function returns the quotient
form. -/
theorem cosineSimilarity_value_spec_witness :
    cosineSimilarity [(1 : ℝ)] [1] =
      .ok (dotList [(1 : ℝ)] [1] / (Real.sqrt (sqSum [(1 : ℝ)]) * Real.sqrt (sqSum [1]))) := by
  have hne : Real.sqrt (sqSum [(1 : ℝ)]) ≠ 0 := by
    rw [show sqSum [(1 : ℝ)] = 1 by norm_num [sqSum], Real.sqrt_one]
    norm_num
  exact ((cosineSimilarity_value_spec [(1 : ℝ)] [1] rfl).1 hne hne).1
